import Mathlib

/-!
Verification of the timetracker core (src/lib.rs) against its specification.

The Rust sources are shallowly embedded: the pure body of each operation
(the code between `TimeSheet::load` and `TimeSheet::save`) becomes a Lean
function over an explicit `TimeSheet` value, with the wall-clock time
(`Local::now()`) passed in as an argument.  `chrono::DateTime<Local>` is
modelled at second granularity as a local calendar day index plus the
second within that day; ordering and subtraction go through the linear
instant `epochSec`.  Fallible Rust code returning
`Result<_, TimetrackerError>` becomes `Except TimetrackerError _`.
-/

set_option maxRecDepth 4096

namespace Timetracker

/-- Model of `chrono::DateTime<Local>` at second granularity: `day` is the
local calendar day index (what `.date()` projects out) and `sec` the second
within that day.  The linear instant is `epochSec`. -/
structure DateTime where
  day : Int
  sec : Int
deriving DecidableEq, Repr

/-- The linear instant of a `DateTime`; `chrono` compares and subtracts
date-times by instant. -/
def DateTime.epochSec (t : DateTime) : Int := t.day * 86400 + t.sec

/-- Model of `enum TimetrackerError` (src/lib.rs lines 16-23): one variant
per error kind, each carrying its message string. -/
inductive TimetrackerError where
  | Subproject (msg : String)
  | Activity (msg : String)
  | IOError (msg : String)
  | SerdeJSON (msg : String)
  | ChronoParse (msg : String)
  | TimeSheet (msg : String)
deriving DecidableEq, Repr

/-- Model of `struct SubProject` (src/lib.rs lines 58-63). -/
structure SubProject where
  id : Nat
  name : String
  description : String
deriving DecidableEq, Repr

/-- Model of `struct WorkSession` (src/lib.rs lines 93-100).  `stop = none`
means the session is open. -/
structure WorkSession where
  start : DateTime
  stop : Option DateTime
  description : String
  homeoffice : Bool
deriving DecidableEq, Repr

/-- Model of `WorkSession::new` (src/lib.rs lines 123-135). -/
def WorkSession.new (start : DateTime) (stop : Option DateTime)
    (description : String) (homeoffice : Bool) : WorkSession :=
  ⟨start, stop, description, homeoffice⟩

/-- Model of `WorkSession::start_new_work_session` (src/lib.rs lines 137-148):
a fresh open session. -/
def WorkSession.start_new_work_session (start : DateTime) (description : String)
    (homeoffice : Bool) : WorkSession :=
  ⟨start, none, description, homeoffice⟩

/-- Model of `struct TimeSheet` (src/lib.rs lines 161-168). -/
structure TimeSheet where
  project_name : String
  hourly_rate : Option ℚ
  work_sessions : List WorkSession
  subprojects : List SubProject
deriving DecidableEq, Repr

/-- Model of `start_working_session` (src/lib.rs lines 241-277) between the
`TimeSheet::load` and `TimeSheet::save` calls: the time sheet is an argument,
`Local::now()` is the argument `now`, and the `Ok` payload is the sheet that
would be saved.  The `desc` local mirrors the Rust `String::new()` /
`push_str` construction. -/
def start_working_session (now : DateTime) (description : Option String)
    (homeoffice : Bool) (time_sheet : TimeSheet) :
    Except TimetrackerError TimeSheet :=
  match time_sheet.work_sessions.getLast? with
  | some s =>
    match s.stop with
    | none => .error (.TimeSheet "Last work session not finished!")
    | some _ =>
      let desc := match description with | some d => d | none => ""
      .ok { time_sheet with
              work_sessions := time_sheet.work_sessions
                ++ [WorkSession.start_new_work_session now desc homeoffice] }
  | none =>
      let desc := match description with | some d => d | none => ""
      .ok { time_sheet with
              work_sessions := time_sheet.work_sessions
                ++ [WorkSession.start_new_work_session now desc homeoffice] }

/-- Model of `stop_working_session` (src/lib.rs lines 279-325) between load
and save.  The Rust `pop` / mutate / `push` of the last element is written
as `dropLast ++ [last']`. -/
def stop_working_session (now : DateTime) (description : Option String)
    (homeoffice : Bool) (time_sheet : TimeSheet) :
    Except TimetrackerError TimeSheet :=
  match time_sheet.work_sessions.getLast? with
  | some s =>
    match s.stop with
    | none =>
      let desc := match description with | some d => d | none => ""
      let last_work_session := { s with stop := some now }
      let last_work_session :=
        if description.isSome then { last_work_session with description := desc }
        else last_work_session
      let last_work_session :=
        if homeoffice then { last_work_session with homeoffice := homeoffice }
        else last_work_session
      .ok { time_sheet with
              work_sessions := time_sheet.work_sessions.dropLast
                ++ [last_work_session] }
    | some _ => .error (.TimeSheet "No unfinished work session found to stop!")
  | none => .error (.TimeSheet "No unfinished work session found to stop!")

/-- Model of `switch_working_sessions` (src/lib.rs lines 327-334): stop the
current session, then start a new one with no description.  The two
`Local::now()` calls are the two time arguments. -/
def switch_working_sessions (now_stop now_start : DateTime)
    (description : Option String) (homeoffice : Bool) (time_sheet : TimeSheet) :
    Except TimetrackerError TimeSheet :=
  match stop_working_session now_stop description homeoffice time_sheet with
  | .error e => .error e
  | .ok ts1 => start_working_session now_start none homeoffice ts1

/-- Model of `add_work_session_to_time_sheet` (src/lib.rs lines 452-478)
between load and save.  The `Local.datetime_from_str` parsing (chrono,
external crate) is modelled as already-parsed `DateTime` arguments; the
`ParseError` path returns before the sheet is touched, so it is not part of
this function.  Rust's stable `Vec::sort` under `WorkSession`'s `Ord`
(compare by `start`) is modelled by the stable `List.insertionSort` on the
start instants. -/
def add_work_session_to_time_sheet (start : DateTime) (stop : Option DateTime)
    (description : Option String) (homeoffice : Bool) (time_sheet : TimeSheet) :
    TimeSheet :=
  let work_session := WorkSession.new start stop
    (match description with | some d => d | none => "") homeoffice
  { time_sheet with
      work_sessions :=
        List.insertionSort (fun a b => a.start.epochSec ≤ b.start.epochSec)
          (time_sheet.work_sessions ++ [work_session]) }

/-- Model of `add_subproject` (src/lib.rs lines 480-494) between load and
save: the new id is the current number of subprojects. -/
def add_subproject (name : String) (description : String)
    (time_sheet : TimeSheet) : TimeSheet :=
  let subproject := SubProject.mk time_sheet.subprojects.length name description
  { time_sheet with subprojects := time_sheet.subprojects ++ [subproject] }

/-- The tail-is-current invariant: every session except the last one is
closed.  This is exactly "at most one session is open, and if one is open it
is the last element", which the stop/switch logic assumes. -/
def tail_is_current (sessions : List WorkSession) : Prop :=
  ∀ s ∈ sessions.dropLast, s.stop ≠ none

instance (sessions : List WorkSession) : Decidable (tail_is_current sessions) :=
  inferInstanceAs (Decidable (∀ s ∈ sessions.dropLast, s.stop ≠ none))

/-- Every element of a list whose last element is closed and whose other
elements are closed is closed. -/
lemma all_stop_ne_none {l : List WorkSession} {s : WorkSession}
    (hinv : tail_is_current l) (hl : l.getLast? = some s) (hs : s.stop ≠ none) :
    ∀ x ∈ l, x.stop ≠ none := by
  intro x hx
  have hne : l ≠ [] := by
    intro h; subst h; simp at hl
  have hform := List.dropLast_append_getLast hne
  rw [← hform] at hx
  rcases List.mem_append.mp hx with hx' | hx'
  · exact hinv x hx'
  · have hgl : l.getLast hne = s := by
      have := List.getLast?_eq_getLast l hne
      rw [this] at hl
      exact Option.some.inj hl
    rw [List.mem_singleton.mp hx', hgl]
    exact hs

/-- `start_working_session` preserves the tail-is-current invariant: it only
succeeds when the last session is closed, and it appends an open session at
the tail. -/
lemma start_preserves_tail (now : DateTime) (description : Option String)
    (homeoffice : Bool) (time_sheet ts' : TimeSheet)
    (hinv : tail_is_current time_sheet.work_sessions)
    (hok : start_working_session now description homeoffice time_sheet = .ok ts') :
    tail_is_current ts'.work_sessions := by
  rcases hgl : time_sheet.work_sessions.getLast? with _ | s
  · have hempty : time_sheet.work_sessions = [] := List.getLast?_eq_none_iff.mp hgl
    simp only [start_working_session, hgl] at hok
    cases hok
    intro x hx
    rw [List.dropLast_concat, hempty] at hx
    exact absurd hx (List.not_mem_nil x)
  · rcases hstop : s.stop with _ | st
    · simp only [start_working_session, hgl, hstop] at hok
      simp at hok
    · simp only [start_working_session, hgl, hstop] at hok
      cases hok
      intro x hx
      rw [List.dropLast_concat] at hx
      exact all_stop_ne_none hinv hgl (by rw [hstop]; simp) x hx

/-- `stop_working_session` preserves the tail-is-current invariant: it
replaces the last session and leaves the prefix untouched. -/
lemma stop_preserves_tail (now : DateTime) (description : Option String)
    (homeoffice : Bool) (time_sheet ts' : TimeSheet)
    (hinv : tail_is_current time_sheet.work_sessions)
    (hok : stop_working_session now description homeoffice time_sheet = .ok ts') :
    tail_is_current ts'.work_sessions := by
  rcases hgl : time_sheet.work_sessions.getLast? with _ | s
  · simp only [stop_working_session, hgl] at hok
    simp at hok
  · rcases hstop : s.stop with _ | st
    · simp only [stop_working_session, hgl, hstop] at hok
      cases hok
      intro x hx
      rw [List.dropLast_concat] at hx
      exact hinv x hx
    · simp only [stop_working_session, hgl, hstop] at hok
      simp at hok

/-- C1: lifecycle exclusivity.  If the last session of the ledger is open,
`start` fails with the `AlreadyRunning` lifecycle error (the
`TimetrackerError::TimeSheet("Last work session not finished!")` value) and
returns no sheet to save, so no session is appended; if the ledger is empty
or its last session is closed, `stop` fails with the `NoRunningSession`
lifecycle error (`TimetrackerError::TimeSheet("No unfinished work session
found to stop!")`) and returns no sheet to save, so no session is
modified. -/
theorem C1_lifecycle_exclusivity (time_sheet : TimeSheet) (now : DateTime)
    (description : Option String) (homeoffice : Bool) :
    ((∃ s, time_sheet.work_sessions.getLast? = some s ∧ s.stop = none) →
      start_working_session now description homeoffice time_sheet =
        .error (.TimeSheet "Last work session not finished!"))
    ∧ ((time_sheet.work_sessions.getLast? = none ∨
        ∃ s, time_sheet.work_sessions.getLast? = some s ∧ s.stop ≠ none) →
      stop_working_session now description homeoffice time_sheet =
        .error (.TimeSheet "No unfinished work session found to stop!")) := by
  constructor
  · rintro ⟨s, hs, hstop⟩
    simp [start_working_session, hs, hstop]
  · rintro (hempty | ⟨s, hs, hstop⟩)
    · simp [stop_working_session, hempty]
    · rcases h' : s.stop with _ | st
      · exact absurd h' hstop
      · simp [stop_working_session, hs, h']

/-- Witness for C1 at concrete ledgers: a sheet whose last session is open
rejects `start`, and an empty sheet rejects `stop`. -/
theorem C1_lifecycle_exclusivity_witness :
    (start_working_session ⟨0, 60⟩ none false
        ⟨"p", none, [⟨⟨0, 0⟩, none, "w", false⟩], []⟩ =
      .error (.TimeSheet "Last work session not finished!"))
    ∧ (stop_working_session ⟨0, 60⟩ none false ⟨"p", none, [], []⟩ =
      .error (.TimeSheet "No unfinished work session found to stop!")) :=
  ⟨(C1_lifecycle_exclusivity ⟨"p", none, [⟨⟨0, 0⟩, none, "w", false⟩], []⟩
      ⟨0, 60⟩ none false).1 ⟨⟨⟨0, 0⟩, none, "w", false⟩, rfl, rfl⟩,
   (C1_lifecycle_exclusivity ⟨"p", none, [], []⟩ ⟨0, 60⟩ none false).2
      (Or.inl rfl)⟩

/-- C2 counterexample: the claim "every operation (including
`insertHistorical`) preserves the tail-is-current invariant" is false.
Concretely: a ledger whose single session is open satisfies the invariant,
but adding a closed historical session with a later start
(`add_work_session_to_time_sheet`, which appends and re-sorts by start)
relocates the open session away from the tail, breaking the invariant. -/
theorem C2_tail_is_current_counterexample :
    tail_is_current
      (TimeSheet.mk "p" none [⟨⟨0, 0⟩, none, "open", false⟩] []).work_sessions
    ∧ ¬ tail_is_current
      (add_work_session_to_time_sheet ⟨1, 0⟩ (some ⟨1, 3600⟩) none false
        (TimeSheet.mk "p" none [⟨⟨0, 0⟩, none, "open", false⟩] [])).work_sessions := by
  constructor
  · intro s hs
    simp at hs
  · intro h
    have := h ⟨⟨0, 0⟩, none, "open", false⟩ (by decide)
    simp at this

/-- C2 as amended: `start`, `stop` and `switch` preserve the tail-is-current
invariant (at most one session open, and an open session is the last
element), but `insertHistorical` (`add_work_session_to_time_sheet`) need
not — its re-sort can relocate an open session away from the tail, as the
counterexample shows. -/
theorem C2_tail_is_current_amended (time_sheet : TimeSheet)
    (now now' : DateTime) (description : Option String) (homeoffice : Bool)
    (hinv : tail_is_current time_sheet.work_sessions) :
    (∀ ts', start_working_session now description homeoffice time_sheet = .ok ts' →
        tail_is_current ts'.work_sessions)
    ∧ (∀ ts', stop_working_session now description homeoffice time_sheet = .ok ts' →
        tail_is_current ts'.work_sessions)
    ∧ (∀ ts', switch_working_sessions now now' description homeoffice time_sheet
          = .ok ts' → tail_is_current ts'.work_sessions) := by
  refine ⟨fun ts' hok => start_preserves_tail now description homeoffice _ _ hinv hok,
          fun ts' hok => stop_preserves_tail now description homeoffice _ _ hinv hok,
          fun ts' hok => ?_⟩
  rcases hstop : stop_working_session now description homeoffice time_sheet with e | ts1
  · simp only [switch_working_sessions, hstop] at hok
    simp at hok
  · simp only [switch_working_sessions, hstop] at hok
    exact start_preserves_tail now' none homeoffice ts1 ts'
      (stop_preserves_tail now description homeoffice _ _ hinv hstop) hok

/-- Witness for C2 as amended: on a ledger with one closed session, `start`
succeeds and the resulting ledger still satisfies tail-is-current. -/
theorem C2_tail_is_current_amended_witness :
    tail_is_current
      (TimeSheet.mk "p" none [⟨⟨0, 0⟩, some ⟨0, 3600⟩, "w", false⟩] []).work_sessions
    ∧ tail_is_current
      (TimeSheet.mk "p" none
        [⟨⟨0, 0⟩, some ⟨0, 3600⟩, "w", false⟩, ⟨⟨1, 0⟩, none, "", false⟩] []).work_sessions :=
  ⟨by decide,
   (C2_tail_is_current_amended
      (TimeSheet.mk "p" none [⟨⟨0, 0⟩, some ⟨0, 3600⟩, "w", false⟩] [])
      ⟨1, 0⟩ ⟨1, 0⟩ none false (by decide)).1
    (TimeSheet.mk "p" none
      [⟨⟨0, 0⟩, some ⟨0, 3600⟩, "w", false⟩, ⟨⟨1, 0⟩, none, "", false⟩] []) rfl⟩

/-- C5: stop frame condition.  When the last session is open, `stop` with no
description and `homeoffice = false` replaces only that session's `stop`
field (the record update `{ s with stop := some now }` keeps `s`'s
description and `s`'s homeoffice flag, so an existing `true` flag is never
demoted) and leaves every other session untouched; a given description
overwrites the old one, and a `homeoffice` argument of `true` sets the flag
to `true`. -/
theorem C5_stop_frame_condition (time_sheet : TimeSheet) (now : DateTime)
    (s : WorkSession) (hl : time_sheet.work_sessions.getLast? = some s)
    (hopen : s.stop = none) :
    stop_working_session now none false time_sheet =
      .ok { time_sheet with
              work_sessions := time_sheet.work_sessions.dropLast
                ++ [{ s with stop := some now }] }
    ∧ (∀ d, stop_working_session now (some d) false time_sheet =
      .ok { time_sheet with
              work_sessions := time_sheet.work_sessions.dropLast
                ++ [{ s with stop := some now, description := d }] })
    ∧ stop_working_session now none true time_sheet =
      .ok { time_sheet with
              work_sessions := time_sheet.work_sessions.dropLast
                ++ [{ s with stop := some now, homeoffice := true }] }
    ∧ (∀ d, stop_working_session now (some d) true time_sheet =
      .ok { time_sheet with
              work_sessions := time_sheet.work_sessions.dropLast
                ++ [{ s with stop := some now, description := d,
                             homeoffice := true }] }) := by
  refine ⟨?_, fun d => ?_, ?_, fun d => ?_⟩ <;>
    simp [stop_working_session, hl, hopen]

/-- Witness for C5: stopping a ledger whose open last session has
description "keep" and `homeoffice = true` with `stop(None, false)` keeps
both the description and the flag, setting only the stop time. -/
theorem C5_stop_frame_condition_witness :
    stop_working_session ⟨0, 7200⟩ none false
      (TimeSheet.mk "p" none [⟨⟨0, 0⟩, none, "keep", true⟩] []) =
    .ok (TimeSheet.mk "p" none [⟨⟨0, 0⟩, some ⟨0, 7200⟩, "keep", true⟩] []) :=
  (C5_stop_frame_condition
    (TimeSheet.mk "p" none [⟨⟨0, 0⟩, none, "keep", true⟩] [])
    ⟨0, 7200⟩ ⟨⟨0, 0⟩, none, "keep", true⟩ rfl rfl).1

/-- Outcome of one command invocation: `ok` with the sheet that was saved,
`err` with the typed `TimetrackerError` returned as `Err`, or `panicked`
when the process aborts through `unwrap` on an `Err` value. -/
inductive OpOutcome where
  | ok (ts : TimeSheet)
  | err (e : TimetrackerError)
  | panicked
deriving DecidableEq, Repr

/-- Model of the full `start_working_session` (src/lib.rs lines 241-277)
including its interaction with `TimeSheet::load`: line 248 propagates a load
failure with `?`, i.e. as a typed error.  `load_result` is the result of
`TimeSheet::load(&path)`. -/
def start_working_session_run (load_result : Except TimetrackerError TimeSheet)
    (now : DateTime) (description : Option String) (homeoffice : Bool) :
    OpOutcome :=
  match load_result with
  | .error e => .err e
  | .ok ts =>
    match start_working_session now description homeoffice ts with
    | .error e => .err e
    | .ok ts' => .ok ts'

/-- Model of the full `stop_working_session` (src/lib.rs lines 279-325)
including its interaction with `TimeSheet::load`: line 286 is
`TimeSheet::load(&path).unwrap()`, so a failed load aborts the process with
a panic instead of returning the typed error (line 323 likewise unwraps the
save result). -/
def stop_working_session_run (load_result : Except TimetrackerError TimeSheet)
    (now : DateTime) (description : Option String) (homeoffice : Bool) :
    OpOutcome :=
  match load_result with
  | .error _ => .panicked
  | .ok ts =>
    match stop_working_session now description homeoffice ts with
    | .error e => .err e
    | .ok ts' => .ok ts'

/-- C3: the claim "every core operation returns either its success value or
exactly one typed TimetrackerError — it never panics, even when loading or
saving the ledger file fails" is contradicted by the code at the failing
input `stop` with a failed load: `stop_working_session` unwraps the load
result and panics, while e.g. `start_working_session` propagates the same
load failure as a typed error.  The spec's propagation policy is clearly
the intent (every other operation uses `?`), so this is a code bug. -/
theorem C3_stop_panics_on_load_failure :
    stop_working_session_run
        (.error (.IOError "No such file or directory (os error 2)"))
        ⟨0, 0⟩ none false = .panicked
    ∧ start_working_session_run
        (.error (.IOError "No such file or directory (os error 2)"))
        ⟨0, 0⟩ none false
      = .err (.IOError "No such file or directory (os error 2)") :=
  ⟨rfl, rfl⟩

/-- Model of the effective stop time in `analyze_work_sheet` (src/lib.rs
lines 371-374): the session's `stop` if closed, otherwise `Local::now()`
(the `now` argument — the evaluation time). -/
def effective_stop (now : DateTime) (work_session : WorkSession) : DateTime :=
  match work_session.stop with
  | some s => s
  | none => now

/-- Model of `chrono::Duration::num_minutes` on a whole-second duration:
the number of whole minutes, truncated toward zero like Rust's `i64`
division, which is `Int.tdiv`. -/
def num_minutes (duration_secs : Int) : Int := duration_secs.tdiv 60

/-- Model of the per-session duration in hours (src/lib.rs line 375):
`(stop_time - work_session.start).num_minutes() as f32 / 60f32`, computed
exactly in ℚ.  The `as f32` cast and the division by `60f32` are monotone,
so the order facts proved about this value transfer to the `f32` value the
code prints and sums. -/
def session_duration_hours (now : DateTime) (work_session : WorkSession) : ℚ :=
  (num_minutes ((effective_stop now work_session).epochSec
      - work_session.start.epochSec) : ℚ) / 60

/-- Truncating division by 60 is monotone in the numerator. -/
lemma tdiv_sixty_mono {x y : ℤ} (h : x ≤ y) : x.tdiv 60 ≤ y.tdiv 60 := by
  rcases le_or_lt 0 x with hx | hx
  · rw [Int.tdiv_eq_ediv hx (by norm_num),
        Int.tdiv_eq_ediv (le_trans hx h) (by norm_num)]
    exact Int.ediv_le_ediv (by norm_num) h
  · rcases le_or_lt 0 y with hy | hy
    · have h1 : 0 ≤ (-x).tdiv 60 := Int.tdiv_nonneg (by omega) (by norm_num)
      have h2 : 0 ≤ y.tdiv 60 := Int.tdiv_nonneg hy (by norm_num)
      rw [Int.neg_tdiv] at h1
      omega
    · have h1 : (-y).tdiv 60 ≤ (-x).tdiv 60 := by
        rw [Int.tdiv_eq_ediv (by omega) (by norm_num),
            Int.tdiv_eq_ediv (by omega : (0:ℤ) ≤ -x) (by norm_num)]
        exact Int.ediv_le_ediv (by norm_num) (by omega)
      rw [Int.neg_tdiv, Int.neg_tdiv] at h1
      omega

/-- C7 counterexample: an open session's computed duration does not strictly
increase with evaluation time, because the duration is truncated to whole
minutes: evaluating an open session started at second 0 at seconds 10 and 20
of the same minute gives the same duration, refuting the claim's strict
inequality at a concrete input. -/
theorem C7_duration_monotonicity_counterexample :
    ¬ (∀ (work_session : WorkSession) (t1 t2 : DateTime),
        work_session.stop = none → t1.epochSec < t2.epochSec →
        session_duration_hours t1 work_session
          < session_duration_hours t2 work_session) := by
  intro hclaim
  have h := hclaim ⟨⟨0, 0⟩, none, "", false⟩ ⟨0, 10⟩ ⟨0, 20⟩ rfl (by decide)
  have heq : session_duration_hours ⟨0, 20⟩ ⟨⟨0, 0⟩, none, "", false⟩
      = session_duration_hours ⟨0, 10⟩ ⟨⟨0, 0⟩, none, "", false⟩ := rfl
  rw [heq] at h
  exact lt_irrefl _ h

/-- C7 as amended: for every session with `start ≤ stop` the computed
duration (whole minutes of `effective_stop − start`, divided by 60) is
nonnegative, and an open session's computed duration is monotonically
non-decreasing in the evaluation time (strictness fails within a minute, as
the counterexample shows). -/
theorem C7_duration_monotonicity_amended (work_session : WorkSession)
    (now t1 t2 : DateTime) :
    (∀ st, work_session.stop = some st →
        work_session.start.epochSec ≤ st.epochSec →
        0 ≤ session_duration_hours now work_session)
    ∧ (work_session.stop = none → t1.epochSec ≤ t2.epochSec →
        session_duration_hours t1 work_session
          ≤ session_duration_hours t2 work_session) := by
  constructor
  · intro st hstop hle
    simp only [session_duration_hours, effective_stop, num_minutes, hstop]
    apply div_nonneg _ (by norm_num)
    exact_mod_cast Int.tdiv_nonneg (by omega) (by norm_num)
  · intro hopen hle
    simp only [session_duration_hours, effective_stop, num_minutes, hopen]
    apply div_le_div_of_nonneg_right _ (by norm_num : (0:ℚ) ≤ 60)
    exact_mod_cast tdiv_sixty_mono (by omega)

/-- Witness for C7 as amended: a closed one-hour session has nonnegative
duration, and an open session evaluated one minute later has a duration at
least as large. -/
theorem C7_duration_monotonicity_amended_witness :
    0 ≤ session_duration_hours ⟨0, 0⟩ ⟨⟨0, 0⟩, some ⟨0, 3600⟩, "", false⟩
    ∧ session_duration_hours ⟨0, 60⟩ ⟨⟨0, 0⟩, none, "", false⟩
        ≤ session_duration_hours ⟨0, 120⟩ ⟨⟨0, 0⟩, none, "", false⟩ :=
  ⟨(C7_duration_monotonicity_amended ⟨⟨0, 0⟩, some ⟨0, 3600⟩, "", false⟩
      ⟨0, 0⟩ ⟨0, 0⟩ ⟨0, 0⟩).1 ⟨0, 3600⟩ rfl (by decide),
   (C7_duration_monotonicity_amended ⟨⟨0, 0⟩, none, "", false⟩
      ⟨0, 0⟩ ⟨0, 60⟩ ⟨0, 120⟩).2 rfl (by decide)⟩

/-- Association-list model of the `HashMap<String, Vec<Date<Local>>>` in
`analyze_work_sheet` (src/lib.rs line 354).  Keys are years (the code keys
by the `"%Y"` string; for four-digit years the string order used at line 432
coincides with the numeric order used here), values are lists of calendar
days.  `map_lookup` is `HashMap::get`, `map_insert` is `HashMap::insert`
(replace an existing key, otherwise add the key). -/
def map_lookup : List (Int × List Int) → Int → Option (List Int)
  | [], _ => none
  | p :: m, k => if p.1 = k then some p.2 else map_lookup m k

/-- Insert-or-replace for the association-list map model. -/
def map_insert : List (Int × List Int) → Int → List Int → List (Int × List Int)
  | [], k, v => [(k, v)]
  | p :: m, k, v => if p.1 = k then (k, v) :: m else p :: map_insert m k v

lemma map_insert_cons_eq {p : Int × List Int} {m : List (Int × List Int)}
    {k : Int} {v : List Int} (hpk : p.1 = k) :
    map_insert (p :: m) k v = (k, v) :: m := by
  simp [map_insert, hpk]

lemma map_insert_cons_ne {p : Int × List Int} {m : List (Int × List Int)}
    {k : Int} {v : List Int} (hpk : ¬ p.1 = k) :
    map_insert (p :: m) k v = p :: map_insert m k v := by
  simp [map_insert, hpk]

lemma map_lookup_insert_self (m : List (Int × List Int)) (k : Int) (v : List Int) :
    map_lookup (map_insert m k v) k = some v := by
  induction m with
  | nil => simp [map_insert, map_lookup]
  | cons p m ih =>
    by_cases hpk : p.1 = k
    · rw [map_insert_cons_eq hpk]
      simp [map_lookup]
    · rw [map_insert_cons_ne hpk]
      simp [map_lookup, hpk, ih]

lemma map_lookup_insert_ne (m : List (Int × List Int)) (k k' : Int) (v : List Int)
    (h : k ≠ k') : map_lookup (map_insert m k v) k' = map_lookup m k' := by
  induction m with
  | nil => simp [map_insert, map_lookup, h]
  | cons p m ih =>
    by_cases hpk : p.1 = k
    · have hpk' : ¬ p.1 = k' := by rw [hpk]; exact h
      rw [map_insert_cons_eq hpk]
      simp [map_lookup, h, hpk']
    · rw [map_insert_cons_ne hpk]
      simp [map_lookup, ih]

lemma map_insert_keys_mem (m : List (Int × List Int)) (k k' : Int) (v : List Int) :
    k' ∈ (map_insert m k v).map Prod.fst ↔ k' = k ∨ k' ∈ m.map Prod.fst := by
  induction m with
  | nil => simp [map_insert]
  | cons p m ih =>
    by_cases hpk : p.1 = k
    · rw [map_insert_cons_eq hpk]
      simp [hpk]
    · rw [map_insert_cons_ne hpk]
      simp [ih]
      tauto

lemma map_insert_keys_nodup (m : List (Int × List Int)) (k : Int) (v : List Int)
    (h : (m.map Prod.fst).Nodup) : ((map_insert m k v).map Prod.fst).Nodup := by
  induction m with
  | nil => simp [map_insert]
  | cons p m ih =>
    rcases List.nodup_cons.mp h with ⟨hp, hm⟩
    by_cases hpk : p.1 = k
    · rw [map_insert_cons_eq hpk, List.map_cons]
      refine List.nodup_cons.mpr ⟨?_, hm⟩
      rw [← hpk]
      exact hp
    · rw [map_insert_cons_ne hpk, List.map_cons]
      refine List.nodup_cons.mpr ⟨?_, ih hm⟩
      intro hmem
      rcases (map_insert_keys_mem m k p.1 v).mp hmem with h2 | h2
      · exact hpk h2
      · exact hp h2

lemma map_lookup_isSome_iff (m : List (Int × List Int)) (k : Int) :
    (map_lookup m k).isSome ↔ k ∈ m.map Prod.fst := by
  induction m with
  | nil => simp [map_lookup]
  | cons p m ih =>
    by_cases hpk : p.1 = k
    · simp [map_lookup, hpk]
    · simp only [map_lookup, if_neg hpk, List.map_cons, List.mem_cons, ih]
      constructor
      · exact Or.inr
      · rintro (h2 | h2)
        · exact absurd h2.symm hpk
        · exact h2

/-- The update applied to one year's day list by the homeoffice bookkeeping
(src/lib.rs lines 418-421): append the session's start date if it is not
already recorded and the session is homeoffice-flagged. -/
def step_days (v : List Int) (work_session : WorkSession) : List Int :=
  if work_session.start.day ∉ v ∧ work_session.homeoffice then
    v ++ [work_session.start.day]
  else v

/-- Model of one iteration of the homeoffice bookkeeping in the session loop
of `analyze_work_sheet` (src/lib.rs lines 409-421), parametrized by the
calendar's day-to-year map `yearOf` (chrono's `%Y`, external crate): ensure
the session's start year has a map entry, then append the start date to that
year's list if the session is homeoffice-flagged and the date is new. -/
def homeoffice_step (yearOf : Int → Int) (m : List (Int × List Int))
    (work_session : WorkSession) : List (Int × List Int) :=
  let work_date := work_session.start.day
  let year := yearOf work_date
  let m1 := match map_lookup m year with
    | none => map_insert m year []
    | some _ => m
  let homeoffice_vec := (map_lookup m1 year).getD []
  if work_date ∉ homeoffice_vec ∧ work_session.homeoffice then
    map_insert m1 year (homeoffice_vec ++ [work_date])
  else m1

/-- Model of the whole homeoffice bookkeeping of the session loop (src/lib.rs
lines 369-422, restricted to the `homeoffice_map` updates, which are
independent of the table rendering interleaved with them). -/
def homeoffice_fold (yearOf : Int → Int) (sessions : List WorkSession) :
    List (Int × List Int) :=
  sessions.foldl (homeoffice_step yearOf) []

/-- Model of the homeoffice-by-year report table (src/lib.rs lines 428-439):
one row per key of the map, keys sorted ascending, each row carrying the
length of that year's day list. -/
def homeoffice_report (yearOf : Int → Int) (sessions : List WorkSession) :
    List (Int × Nat) :=
  let m := homeoffice_fold yearOf sessions
  (List.insertionSort (· ≤ ·) (m.map Prod.fst)).map
    (fun year => (year, ((map_lookup m year).getD []).length))

lemma homeoffice_step_lookup (yearOf : Int → Int) (m : List (Int × List Int))
    (work_session : WorkSession) (y : Int) :
    (map_lookup (homeoffice_step yearOf m work_session) y).getD [] =
      if yearOf work_session.start.day = y then
        step_days ((map_lookup m y).getD []) work_session
      else (map_lookup m y).getD [] := by
  by_cases hy : yearOf work_session.start.day = y
  · subst hy
    rw [if_pos rfl]
    simp only [homeoffice_step, step_days]
    rcases hv : map_lookup m (yearOf work_session.start.day) with _ | v
    · simp only [hv, map_lookup_insert_self, Option.getD_some,
        Option.getD_none, List.not_mem_nil, not_false_iff, true_and,
        List.nil_append]
      by_cases hho : work_session.homeoffice
      · simp [hho, map_lookup_insert_self]
      · simp [hho, map_lookup_insert_self]
    · simp only [hv, Option.getD_some]
      by_cases hcond : work_session.start.day ∉ v ∧ work_session.homeoffice
      · simp [hcond, map_lookup_insert_self]
      · simp [hcond, hv]
  · rw [if_neg hy]
    simp only [homeoffice_step]
    rcases hv : map_lookup m (yearOf work_session.start.day) with _ | v
    · simp only [hv, map_lookup_insert_self, Option.getD_some,
        Option.getD_none, List.not_mem_nil, not_false_iff, true_and,
        List.nil_append]
      split_ifs with hcond
      · rw [map_lookup_insert_ne _ _ _ _ hy, map_lookup_insert_ne _ _ _ _ hy]
      · rw [map_lookup_insert_ne _ _ _ _ hy]
    · simp only [hv, Option.getD_some]
      by_cases hcond : work_session.start.day ∉ v ∧ work_session.homeoffice
      · simp only [if_pos hcond]
        rw [map_lookup_insert_ne _ _ _ _ hy]
      · simp only [if_neg hcond]

lemma homeoffice_step_keys_mem (yearOf : Int → Int) (m : List (Int × List Int))
    (work_session : WorkSession) (y : Int) :
    y ∈ (homeoffice_step yearOf m work_session).map Prod.fst ↔
      y = yearOf work_session.start.day ∨ y ∈ m.map Prod.fst := by
  simp only [homeoffice_step]
  rcases hv : map_lookup m (yearOf work_session.start.day) with _ | v
  · simp only [hv, map_lookup_insert_self, Option.getD_some,
      List.not_mem_nil, not_false_iff, true_and, List.nil_append]
    split_ifs with hcond
    · rw [map_insert_keys_mem, map_insert_keys_mem]
      tauto
    · rw [map_insert_keys_mem]
  · simp only [hv, Option.getD_some]
    have hyin : yearOf work_session.start.day ∈ m.map Prod.fst := by
      rw [← map_lookup_isSome_iff, hv]
      rfl
    by_cases hcond : work_session.start.day ∉ v ∧ work_session.homeoffice
    · simp only [if_pos hcond]
      rw [map_insert_keys_mem]
    · simp only [if_neg hcond]
      constructor
      · exact Or.inr
      · rintro (h2 | h2)
        · rw [h2]; exact hyin
        · exact h2

lemma homeoffice_step_keys_nodup (yearOf : Int → Int) (m : List (Int × List Int))
    (work_session : WorkSession)
    (h : (m.map Prod.fst).Nodup) :
    ((homeoffice_step yearOf m work_session).map Prod.fst).Nodup := by
  simp only [homeoffice_step]
  rcases hv : map_lookup m (yearOf work_session.start.day) with _ | v
  · simp only [hv]
    by_cases hcond : work_session.start.day ∉
        ((map_lookup (map_insert m (yearOf work_session.start.day) [])
          (yearOf work_session.start.day)).getD []) ∧ work_session.homeoffice
    · simp only [if_pos hcond]
      exact map_insert_keys_nodup _ _ _ (map_insert_keys_nodup _ _ _ h)
    · simp only [if_neg hcond]
      exact map_insert_keys_nodup _ _ _ h
  · simp only [hv, Option.getD_some]
    by_cases hcond : work_session.start.day ∉ v ∧ work_session.homeoffice
    · simp only [if_pos hcond]
      exact map_insert_keys_nodup _ _ _ h
    · simp only [if_neg hcond]
      exact h

/-- The evolution of a single year's day list across the session loop. -/
def days_fold (yearOf : Int → Int) (y : Int) (sessions : List WorkSession)
    (v : List Int) : List Int :=
  sessions.foldl
    (fun acc ws => if yearOf ws.start.day = y then step_days acc ws else acc) v

lemma days_fold_cons (yearOf : Int → Int) (y : Int) (ws : WorkSession)
    (l : List WorkSession) (v : List Int) :
    days_fold yearOf y (ws :: l) v =
      days_fold yearOf y l
        (if yearOf ws.start.day = y then step_days v ws else v) := rfl

lemma fold_lookup (yearOf : Int → Int) (l : List WorkSession) :
    ∀ (m : List (Int × List Int)) (y : Int),
    (map_lookup (l.foldl (homeoffice_step yearOf) m) y).getD [] =
      days_fold yearOf y l ((map_lookup m y).getD []) := by
  induction l with
  | nil => intro m y; rfl
  | cons ws l ih =>
    intro m y
    rw [List.foldl_cons, ih, days_fold_cons, homeoffice_step_lookup]

lemma fold_keys_mem (yearOf : Int → Int) (l : List WorkSession) :
    ∀ (m : List (Int × List Int)) (y : Int),
    y ∈ (l.foldl (homeoffice_step yearOf) m).map Prod.fst ↔
      (∃ ws ∈ l, yearOf ws.start.day = y) ∨ y ∈ m.map Prod.fst := by
  induction l with
  | nil => intro m y; simp
  | cons ws l ih =>
    intro m y
    rw [List.foldl_cons, ih, homeoffice_step_keys_mem]
    simp only [List.mem_cons]
    constructor
    · rintro (⟨w, hw, hwy⟩ | (h2 | h2))
      · exact Or.inl ⟨w, Or.inr hw, hwy⟩
      · exact Or.inl ⟨ws, Or.inl rfl, h2.symm⟩
      · exact Or.inr h2
    · rintro (⟨w, rfl | hw, hwy⟩ | h2)
      · exact Or.inr (Or.inl hwy.symm)
      · exact Or.inl ⟨w, hw, hwy⟩
      · exact Or.inr (Or.inr h2)

lemma fold_keys_nodup (yearOf : Int → Int) (l : List WorkSession) :
    ∀ (m : List (Int × List Int)), (m.map Prod.fst).Nodup →
    ((l.foldl (homeoffice_step yearOf) m).map Prod.fst).Nodup := by
  induction l with
  | nil => intro m h; exact h
  | cons ws l ih =>
    intro m h
    rw [List.foldl_cons]
    exact ih _ (homeoffice_step_keys_nodup yearOf m ws h)

lemma step_days_nodup (v : List Int) (ws : WorkSession) (h : v.Nodup) :
    (step_days v ws).Nodup := by
  rw [step_days]
  split_ifs with hcond
  · rw [List.nodup_append]
    exact ⟨h, List.nodup_singleton _, by
      intro d hd hd'
      rw [List.mem_singleton.mp hd'] at hd
      exact hcond.1 hd⟩
  · exact h

lemma step_days_mem (v : List Int) (ws : WorkSession) (d : Int) :
    d ∈ step_days v ws ↔ d ∈ v ∨ (ws.homeoffice ∧ ws.start.day = d) := by
  rw [step_days]
  split_ifs with hcond
  · simp only [List.mem_append, List.mem_singleton]
    constructor
    · rintro (h2 | h2)
      · exact Or.inl h2
      · exact Or.inr ⟨hcond.2, h2.symm⟩
    · rintro (h2 | ⟨_, h2⟩)
      · exact Or.inl h2
      · exact Or.inr h2.symm
  · constructor
    · exact Or.inl
    · rintro (h2 | ⟨hho, h2⟩)
      · exact h2
      · rw [not_and_or, not_not] at hcond
        rcases hcond with h3 | h3
        · rw [← h2]; exact h3
        · exact absurd hho h3

lemma days_fold_nodup (yearOf : Int → Int) (y : Int) (l : List WorkSession) :
    ∀ v : List Int, v.Nodup → (days_fold yearOf y l v).Nodup := by
  induction l with
  | nil => intro v h; exact h
  | cons ws l ih =>
    intro v h
    rw [days_fold_cons]
    split_ifs with hy
    · exact ih _ (step_days_nodup v ws h)
    · exact ih _ h

lemma days_fold_mem (yearOf : Int → Int) (y : Int) (l : List WorkSession) :
    ∀ (v : List Int) (d : Int), d ∈ days_fold yearOf y l v ↔
      d ∈ v ∨ ∃ ws ∈ l, ws.homeoffice ∧ ws.start.day = d
        ∧ yearOf ws.start.day = y := by
  induction l with
  | nil => intro v d; simp [days_fold]
  | cons ws l ih =>
    intro v d
    rw [days_fold_cons, ih]
    split_ifs with hy
    · rw [step_days_mem]
      simp only [List.mem_cons]
      constructor
      · rintro ((h2 | ⟨hho, h2⟩) | ⟨w, hw, h3⟩)
        · exact Or.inl h2
        · exact Or.inr ⟨ws, Or.inl rfl, hho, h2, hy⟩
        · exact Or.inr ⟨w, Or.inr hw, h3⟩
      · rintro (h2 | ⟨w, rfl | hw, hho, h2, h3⟩)
        · exact Or.inl (Or.inl h2)
        · exact Or.inl (Or.inr ⟨hho, h2⟩)
        · exact Or.inr ⟨w, hw, hho, h2, h3⟩
    · simp only [List.mem_cons]
      constructor
      · rintro (h2 | ⟨w, hw, h3⟩)
        · exact Or.inl h2
        · exact Or.inr ⟨w, Or.inr hw, h3⟩
      · rintro (h2 | ⟨w, rfl | hw, hho, h2, h3⟩)
        · exact Or.inl h2
        · exact absurd h3 hy
        · exact Or.inr ⟨w, hw, hho, h2, h3⟩

lemma length_eq_of_nodup_of_mem_iff {l1 l2 : List Int} (h1 : l1.Nodup)
    (h2 : l2.Nodup) (h : ∀ d, d ∈ l1 ↔ d ∈ l2) : l1.length = l2.length :=
  (List.perm_of_nodup_nodup_toFinset_eq h1 h2
    (Finset.ext fun d => by
      rw [List.mem_toFinset, List.mem_toFinset]; exact h d)).length_eq

lemma insertionSort_eq_of_perm {l1 l2 : List Int} (hp : l1.Perm l2) :
    List.insertionSort (· ≤ ·) l1 = List.insertionSort (· ≤ ·) l2 :=
  List.eq_of_perm_of_sorted
    ((List.perm_insertionSort _ l1).trans
      (hp.trans (List.perm_insertionSort _ l2).symm))
    (List.sorted_insertionSort _ l1) (List.sorted_insertionSort _ l2)

lemma homeoffice_count_eq (yearOf : Int → Int) (sessions : List WorkSession)
    (y : Int) :
    ((map_lookup (homeoffice_fold yearOf sessions) y).getD []).length =
      ((((sessions.filter (fun ws => ws.homeoffice)).map
          (fun ws => ws.start.day)).filter (fun d => yearOf d = y)).dedup).length := by
  rw [homeoffice_fold, fold_lookup]
  apply length_eq_of_nodup_of_mem_iff
  · exact days_fold_nodup yearOf y sessions _ List.nodup_nil
  · exact List.nodup_dedup _
  · intro d
    rw [days_fold_mem]
    simp only [map_lookup, Option.getD_none, List.not_mem_nil, false_or,
      List.mem_dedup, List.mem_filter, List.mem_map, decide_eq_true_eq]
    constructor
    · rintro ⟨w, hw, hho, h2, h3⟩
      exact ⟨⟨w, ⟨hw, hho⟩, h2⟩, by rw [← h2]; exact h3⟩
    · rintro ⟨⟨w, ⟨hw, hho⟩, h2⟩, h3⟩
      exact ⟨w, hw, hho, h2, by rw [h2]; exact h3⟩

/-- C6 counterexample: the report does not contain rows only for years with
at least one homeoffice-flagged session.  A ledger with a single session
that is not homeoffice-flagged still produces a row for that session's year
(with count 0), because the loop inserts a map key for every session's year
before checking the homeoffice flag (src/lib.rs lines 412-414).  The
calendar map sends day 0 (the session's start date) to year 1970; only its
value at that one day matters. -/
theorem C6_homeoffice_day_counting_counterexample :
    (∀ ws ∈ [WorkSession.mk ⟨0, 0⟩ (some ⟨0, 3600⟩) "w" false],
      ws.homeoffice = false)
    ∧ homeoffice_report (fun d => 1970 + d.fdiv 365)
        [WorkSession.mk ⟨0, 0⟩ (some ⟨0, 3600⟩) "w" false] = [(1970, 0)] := by
  constructor
  · intro ws hws
    rw [List.mem_singleton.mp hws]
  · rfl

/-- C6 as amended: the homeoffice-by-year report contains a row exactly for
each year in which at least one session starts (whether or not any session
of that year is homeoffice-flagged, so the count may be 0), years sorted
ascending, and each row's count is the number of distinct calendar start
dates in that year carrying at least one homeoffice-flagged session — a
date counts once regardless of how many homeoffice sessions fall on it. -/
theorem C6_homeoffice_day_counting_amended (yearOf : Int → Int)
    (sessions : List WorkSession) :
    homeoffice_report yearOf sessions =
      (List.insertionSort (· ≤ ·)
          ((sessions.map (fun ws => yearOf ws.start.day)).dedup)).map
        (fun y => (y,
          ((((sessions.filter (fun ws => ws.homeoffice)).map
              (fun ws => ws.start.day)).filter (fun d => yearOf d = y)).dedup).length)) := by
  rw [homeoffice_report]
  have hkeys_nodup : ((homeoffice_fold yearOf sessions).map Prod.fst).Nodup :=
    fold_keys_nodup yearOf sessions [] (by simp)
  have hkeys_mem : ∀ y, y ∈ (homeoffice_fold yearOf sessions).map Prod.fst ↔
      y ∈ (sessions.map (fun ws => yearOf ws.start.day)).dedup := by
    intro y
    rw [homeoffice_fold, fold_keys_mem]
    simp only [List.map_nil, List.not_mem_nil, or_false, List.mem_dedup,
      List.mem_map]
  have hperm := List.perm_of_nodup_nodup_toFinset_eq hkeys_nodup
    (List.nodup_dedup _)
    (Finset.ext fun y => by
      rw [List.mem_toFinset, List.mem_toFinset]; exact hkeys_mem y)
  rw [insertionSort_eq_of_perm hperm]
  exact List.map_congr_left fun y _ => by rw [homeoffice_count_eq]

/-- Rust's `str::split(' ')` (src/lib.rs line 210) on the character list:
split at every space, keeping empty pieces, always producing at least one
piece. -/
def split_chars (sep : Char) : List Char → List (List Char)
  | [] => [[]]
  | c :: rest =>
    match split_chars sep rest with
    | [] => [[]]
    | w :: ws => if c = sep then [] :: w :: ws else (c :: w) :: ws

/-- The word list `desc_string.split(' ')` of src/lib.rs line 210. -/
def split_on_spaces (s : String) : List String :=
  (split_chars ' ' s.toList).map (fun cs => String.mk cs)

/-- Rust's `Vec::join(" ")` as used at src/lib.rs lines 214, 217, 222. -/
def join_with_spaces : List String → String
  | [] => ""
  | [w] => w
  | w :: rest => w ++ " " ++ join_with_spaces rest

/-- Model of the loop of `split_description_string` (src/lib.rs lines
213-222), parametrized by the grapheme-cluster counter `gc` (Rust's
`graphemes(true).count()` from the external `unicode_segmentation` crate).
The accumulator `line_vec` is the line currently being filled; when the
current line's grapheme count plus the next word's grapheme count exceeds
the budget, the line is flushed and the word starts a new line; the final
line is always flushed. -/
def split_description_words (gc : String → Nat) (max_line_length : Nat) :
    List String → List String → List String
  | [], line_vec => [join_with_spaces line_vec]
  | word :: rest, line_vec =>
    if gc (join_with_spaces line_vec) + gc word > max_line_length then
      join_with_spaces line_vec ::
        split_description_words gc max_line_length rest [word]
    else
      split_description_words gc max_line_length rest (line_vec ++ [word])

/-- The list of lines produced by `split_description_string` (src/lib.rs
lines 209-224); the Rust function returns them joined with `"\n"`. -/
def split_description_lines (gc : String → Nat) (desc_string : String)
    (max_line_length : Nat) : List String :=
  split_description_words gc max_line_length (split_on_spaces desc_string) []

/-- Model of `split_description_string` (src/lib.rs lines 209-224). -/
def split_description_string (gc : String → Nat) (desc_string : String)
    (max_line_length : Nat) : String :=
  String.intercalate "\n"
    (split_description_lines gc desc_string max_line_length)

lemma join_with_spaces_append (lv : List String) (w : String) (h : lv ≠ []) :
    join_with_spaces (lv ++ [w]) = join_with_spaces lv ++ " " ++ w := by
  induction lv with
  | nil => exact absurd rfl h
  | cons x lv ih =>
    cases lv with
    | nil => rfl
    | cons y lv' =>
      have h1 : join_with_spaces ((x :: y :: lv') ++ [w])
          = x ++ " " ++ join_with_spaces ((y :: lv') ++ [w]) := rfl
      have h2 : join_with_spaces (x :: y :: lv')
          = x ++ " " ++ join_with_spaces (y :: lv') := rfl
      rw [h1, ih (by simp), h2]
      simp only [String.append_assoc]

/-- The core induction for C8: the wrapping loop partitions the remaining
words (appended to the current line) into consecutive chunks; every output
line is the space-join of one chunk, and when every word fits the budget no
line exceeds the budget by more than the one uncounted joining space. -/
lemma split_words_chunks (gc : String → Nat) (N : Nat)
    (hadd : ∀ a b, gc (a ++ b) ≤ gc a + gc b) (hsp : gc " " = 1)
    (hemp : gc "" = 0) :
    ∀ (ws : List String) (lv : List String),
      (∀ w ∈ ws, gc w ≤ N) → gc (join_with_spaces lv) ≤ N + 1 →
      ∃ chunks : List (List String),
        chunks ≠ [] ∧
        chunks.flatten = lv ++ ws ∧
        split_description_words gc N ws lv = chunks.map join_with_spaces ∧
        ∀ l ∈ split_description_words gc N ws lv, gc l ≤ N + 1 := by
  intro ws
  induction ws with
  | nil =>
    intro lv _ hlv
    refine ⟨[lv], by simp, by simp, rfl, ?_⟩
    intro l hl
    simp only [split_description_words, List.mem_singleton] at hl
    rw [hl]
    exact hlv
  | cons word rest ih =>
    intro lv hw hlv
    have hword : gc word ≤ N := hw word (List.mem_cons_self word rest)
    have hwrest : ∀ w ∈ rest, gc w ≤ N := fun w hmem =>
      hw w (List.mem_cons_of_mem word hmem)
    by_cases hgt : gc (join_with_spaces lv) + gc word > N
    · have hwordinv : gc (join_with_spaces [word]) ≤ N + 1 := by
        have hj : join_with_spaces [word] = word := rfl
        rw [hj]
        omega
      rcases ih [word] hwrest hwordinv with ⟨chunks, hne, hjoin, heq, hbound⟩
      refine ⟨lv :: chunks, by simp, ?_, ?_, ?_⟩
      · rw [List.flatten_cons, hjoin]
        simp
      · simp only [split_description_words, if_pos hgt, heq, List.map_cons]
      · intro l hl
        simp only [split_description_words, if_pos hgt] at hl
        rcases List.mem_cons.mp hl with h2 | h2
        · rw [h2]; exact hlv
        · exact hbound l h2
    · push_neg at hgt
      have hnewinv : gc (join_with_spaces (lv ++ [word])) ≤ N + 1 := by
        cases lv with
        | nil =>
          have hj1 : join_with_spaces ([] ++ [word]) = word := rfl
          rw [hj1]
          omega
        | cons x lv' =>
          rw [join_with_spaces_append (x :: lv') word (by simp)]
          have h1 := hadd (join_with_spaces (x :: lv') ++ " ") word
          have h2 := hadd (join_with_spaces (x :: lv')) " "
          rw [hsp] at h2
          omega
      rcases ih (lv ++ [word]) hwrest hnewinv with ⟨chunks, hne, hjoin, heq, hbound⟩
      refine ⟨chunks, hne, ?_, ?_, ?_⟩
      · rw [hjoin]
        simp
      · simp only [split_description_words, if_neg (by omega : ¬ gc
          (join_with_spaces lv) + gc word > N), heq]
      · intro l hl
        simp only [split_description_words, if_neg (by omega : ¬ gc
          (join_with_spaces lv) + gc word > N)] at hl
        exact hbound l hl

/-- C8 counterexample: the line budget can be exceeded because the check at
src/lib.rs line 214 does not count the space that joining the next word
adds.  With a budget of 3 and the ASCII description "ab c" (every word has
at most 3 characters, and on pure-ASCII text grapheme clusters coincide
with chars, counted here by `String.length`), the output is the single line
"ab c" of 4 graphemes, refuting the claimed per-line bound. -/
theorem C8_description_wrapping_counterexample :
    ¬ (∀ (desc : String) (N : Nat),
        (∀ w ∈ split_on_spaces desc, String.length w ≤ N) →
        ∀ l ∈ split_description_lines String.length desc N,
          String.length l ≤ N) := by
  intro hclaim
  have h := hclaim "ab c" 3 (by decide) "ab c" (by decide)
  exact absurd h (by decide)

/-- C8 as amended: for every grapheme counter `gc` (subadditive under
concatenation, counting the space as one cluster and the empty string as
zero), the wrapper breaks only at word boundaries — the produced lines are
the space-joins of consecutive chunks whose concatenation is exactly the
word list, so no word is ever split — it produces at least one line even
for the empty string, and whenever every word of the input has at most N
grapheme clusters, every produced line has at most N + 1 grapheme clusters
(N + 1, not N: the check does not count the joining space, as the
counterexample shows). -/
theorem C8_description_wrapping_amended (gc : String → Nat) (desc : String)
    (N : Nat) (hadd : ∀ a b, gc (a ++ b) ≤ gc a + gc b) (hsp : gc " " = 1)
    (hemp : gc "" = 0) (hwords : ∀ w ∈ split_on_spaces desc, gc w ≤ N) :
    (∃ chunks : List (List String),
        chunks.flatten = split_on_spaces desc ∧
        split_description_lines gc desc N = chunks.map join_with_spaces)
    ∧ split_description_lines gc desc N ≠ []
    ∧ ∀ l ∈ split_description_lines gc desc N, gc l ≤ N + 1 := by
  rcases split_words_chunks gc N hadd hsp hemp (split_on_spaces desc) [] hwords
      (by rw [join_with_spaces, hemp]; omega)
    with ⟨chunks, hne, hjoin, heq, hbound⟩
  refine ⟨⟨chunks, by rw [hjoin]; simp, heq⟩, ?_, hbound⟩
  rw [split_description_lines, heq]
  intro hcontra
  exact hne (List.map_eq_nil_iff.mp hcontra)

/-- Witness for C8 as amended at `gc = String.length` (the grapheme count on
ASCII text), description "hello world" and budget 5: the words "hello" and
"world" each have 5 characters, so the wrapper may be applied. -/
theorem C8_description_wrapping_amended_witness :
    (∃ chunks : List (List String),
        chunks.flatten = split_on_spaces "hello world" ∧
        split_description_lines String.length "hello world" 5 =
          chunks.map join_with_spaces)
    ∧ split_description_lines String.length "hello world" 5 ≠ []
    ∧ ∀ l ∈ split_description_lines String.length "hello world" 5,
        String.length l ≤ 6 :=
  C8_description_wrapping_amended String.length "hello world" 5
    (fun a b => le_of_eq (String.length_append a b)) rfl rfl (by decide)

/-- Model of the JSON documents produced and consumed by serde
(src/lib.rs: `#[derive(Serialize, Deserialize)]` on `SubProject`,
`WorkSession`, `TimeSheet`).  `timestamp` stands for the zoned date-time
string chrono's serde support writes and reads back exactly; `num` for a
JSON number written from the `f32` rate (serde_json round-trips finite
floats exactly; its values are modelled as rationals); `nat` for a JSON
number written from a `usize`. -/
inductive Json where
  | null
  | bool (b : Bool)
  | num (q : ℚ)
  | nat (n : Nat)
  | str (s : String)
  | timestamp (t : DateTime)
  | arr (elems : List Json)
  | obj (fields : List (String × Json))

/-- Field lookup in a JSON object, as serde's derived deserializer matches
fields by name (in any order, ignoring unknown fields). -/
def jlookup : List (String × Json) → String → Option Json
  | [], _ => none
  | p :: fs, k => if p.1 = k then some p.2 else jlookup fs k

/-- Serialization of `Option<DateTime<Local>>`: `None` becomes `null`. -/
def stop_to_json : Option DateTime → Json
  | some t => .timestamp t
  | none => .null

/-- Serialization of `Option<f32>`: `None` becomes `null`. -/
def rate_to_json : Option ℚ → Json
  | some r => .num r
  | none => .null

/-- Serde serialization of `WorkSession` (fields in declaration order,
src/lib.rs lines 93-100). -/
def WorkSession.to_json (ws : WorkSession) : Json :=
  .obj [("start", .timestamp ws.start), ("stop", stop_to_json ws.stop),
        ("description", .str ws.description), ("homeoffice", .bool ws.homeoffice)]

/-- Serde serialization of `SubProject` (src/lib.rs lines 58-63). -/
def SubProject.to_json (sp : SubProject) : Json :=
  .obj [("id", .nat sp.id), ("name", .str sp.name),
        ("description", .str sp.description)]

/-- Serde serialization of `TimeSheet` (src/lib.rs lines 161-168); this is
the document `TimeSheet::save` writes (src/lib.rs lines 197-206). -/
def TimeSheet.to_json (ts : TimeSheet) : Json :=
  .obj [("project_name", .str ts.project_name),
        ("hourly_rate", rate_to_json ts.hourly_rate),
        ("work_sessions", .arr (ts.work_sessions.map WorkSession.to_json)),
        ("subprojects", .arr (ts.subprojects.map SubProject.to_json))]

/-- Deserialization of the `stop` field: a missing `Option` field or an
explicit `null` is `None` (serde's behaviour for `Option` fields). -/
def decode_stop : Option Json → Option (Option DateTime)
  | none => some none
  | some .null => some none
  | some (.timestamp t) => some (some t)
  | some _ => none

/-- Deserialization of the `homeoffice` field: `#[serde(default)]`
(src/lib.rs line 98) turns a missing field into `false`. -/
def decode_homeoffice : Option Json → Option Bool
  | none => some false
  | some (.bool b) => some b
  | some _ => none

/-- Deserialization of the `hourly_rate` field: a missing `Option` field or
`null` is `None`. -/
def decode_rate : Option Json → Option (Option ℚ)
  | none => some none
  | some .null => some none
  | some (.num q) => some (some q)
  | some _ => none

/-- Serde deserialization of `WorkSession`. -/
def WorkSession.from_json : Json → Option WorkSession
  | .obj fs => do
    let start ← (match jlookup fs "start" with
      | some (.timestamp t) => some t
      | _ => none)
    let stop ← decode_stop (jlookup fs "stop")
    let description ← (match jlookup fs "description" with
      | some (.str s) => some s
      | _ => none)
    let homeoffice ← decode_homeoffice (jlookup fs "homeoffice")
    some ⟨start, stop, description, homeoffice⟩
  | _ => none

/-- Serde deserialization of `SubProject`. -/
def SubProject.from_json : Json → Option SubProject
  | .obj fs => do
    let id ← (match jlookup fs "id" with
      | some (.nat n) => some n
      | _ => none)
    let name ← (match jlookup fs "name" with
      | some (.str s) => some s
      | _ => none)
    let description ← (match jlookup fs "description" with
      | some (.str s) => some s
      | _ => none)
    some ⟨id, name, description⟩
  | _ => none

/-- Element-wise decoding of a JSON array, failing if any element fails. -/
def decode_list {α : Type} (f : Json → Option α) : List Json → Option (List α)
  | [] => some []
  | j :: js => do
    let x ← f j
    let xs ← decode_list f js
    some (x :: xs)

/-- Deserialization of the `subprojects` field: `#[serde(default)]`
(src/lib.rs line 166) turns a missing field into `[]`. -/
def decode_subprojects : Option Json → Option (List SubProject)
  | none => some []
  | some (.arr js) => decode_list SubProject.from_json js
  | some _ => none

/-- Serde deserialization of `TimeSheet`; this is what `TimeSheet::load`
(src/lib.rs lines 180-193) applies to the file content. -/
def TimeSheet.from_json : Json → Option TimeSheet
  | .obj fs => do
    let project_name ← (match jlookup fs "project_name" with
      | some (.str s) => some s
      | _ => none)
    let hourly_rate ← decode_rate (jlookup fs "hourly_rate")
    let work_sessions ← (match jlookup fs "work_sessions" with
      | some (.arr js) => decode_list WorkSession.from_json js
      | _ => none)
    let subprojects ← decode_subprojects (jlookup fs "subprojects")
    some ⟨project_name, hourly_rate, work_sessions, subprojects⟩
  | _ => none

lemma ws_round_trip_json (ws : WorkSession) :
    WorkSession.from_json ws.to_json = some ws := by
  rcases ws with ⟨st, sp, d, h⟩
  cases sp <;> rfl

lemma sp_round_trip_json (sp : SubProject) :
    SubProject.from_json sp.to_json = some sp := rfl

lemma decode_list_map {α : Type} (f : Json → Option α) (g : α → Json)
    (l : List α) (h : ∀ x ∈ l, f (g x) = some x) :
    decode_list f (l.map g) = some l := by
  induction l with
  | nil => rfl
  | cons x xs ih =>
    rw [List.map_cons, decode_list, h x (List.mem_cons_self x xs),
      ih fun y hy => h y (List.mem_cons_of_mem x hy)]
    rfl

/-- C4: persistence round trip.  Saving a ledger writes its serde
serialization (`TimeSheet::save`, src/lib.rs lines 201-206) and loading
parses it back (`TimeSheet::load`, lines 184-193; the line-splitting rejoin
is the identity on the newline-free output of `serde_json::to_string`), so
for every ledger value the load of a save yields the ledger back
field-for-field: project name, hourly rate, subprojects with ids, names and
descriptions, and every session's start, stop, description and homeoffice
flag. -/
theorem C4_persistence_round_trip (ts : TimeSheet) :
    TimeSheet.from_json ts.to_json = some ts := by
  rcases ts with ⟨n, r, wss, sps⟩
  have h1 : decode_list WorkSession.from_json (wss.map WorkSession.to_json)
      = some wss :=
    decode_list_map _ _ _ fun x _ => ws_round_trip_json x
  have h2 : decode_list SubProject.from_json (sps.map SubProject.to_json)
      = some sps :=
    decode_list_map _ _ _ fun x _ => sp_round_trip_json x
  cases r <;>
    simp [TimeSheet.from_json, TimeSheet.to_json, jlookup, rate_to_json,
      decode_rate, decode_subprojects, h1, h2]

/-- Element-wise decoding of a serialized list whose decoding transforms
each element. -/
lemma decode_list_map_to {α β : Type} (f : Json → Option β) (g : α → Json)
    (h : α → β) (l : List α) (hfg : ∀ x ∈ l, f (g x) = some (h x)) :
    decode_list f (l.map g) = some (l.map h) := by
  induction l with
  | nil => rfl
  | cons x xs ih =>
    rw [List.map_cons, decode_list, hfg x (List.mem_cons_self x xs),
      ih fun y hy => hfg y (List.mem_cons_of_mem x hy), List.map_cons]
    rfl

lemma WorkSession.from_json_no_homeoffice (st : DateTime)
    (sp : Option DateTime) (d : String) :
    WorkSession.from_json (.obj [("start", .timestamp st),
      ("stop", stop_to_json sp), ("description", .str d)]) =
      some ⟨st, sp, d, false⟩ := by
  cases sp <;> rfl

/-- C9: schema tolerance.  A persisted document that is valid except that
its sessions lack the `homeoffice` field and the top-level `subprojects`
field is absent loads successfully, with `homeoffice = false` on every such
session (`#[serde(default)]`, src/lib.rs line 98) and an empty subprojects
sequence (`#[serde(default)]`, src/lib.rs line 166). -/
theorem C9_schema_tolerance (name : String) (rate : Option ℚ)
    (sessions : List (DateTime × Option DateTime × String)) :
    TimeSheet.from_json (.obj
      [("project_name", .str name), ("hourly_rate", rate_to_json rate),
       ("work_sessions", .arr (sessions.map fun t =>
          .obj [("start", .timestamp t.1), ("stop", stop_to_json t.2.1),
                ("description", .str t.2.2)]))]) =
      some ⟨name, rate, sessions.map fun t => ⟨t.1, t.2.1, t.2.2, false⟩, []⟩ := by
  have h1 : decode_list WorkSession.from_json (sessions.map fun t =>
      Json.obj [("start", .timestamp t.1), ("stop", stop_to_json t.2.1),
                ("description", .str t.2.2)])
      = some (sessions.map fun t => WorkSession.mk t.1 t.2.1 t.2.2 false) :=
    decode_list_map_to _ _ _ _ fun t _ =>
      WorkSession.from_json_no_homeoffice t.1 t.2.1 t.2.2
  cases rate <;>
    simp [TimeSheet.from_json, jlookup, rate_to_json, decode_rate,
      decode_subprojects, h1]

/-- Model of `impl PartialEq for WorkSession` (src/lib.rs lines 102-108):
only `start`, `stop` and `description` are compared — the `homeoffice` flag
is ignored. -/
def WorkSession.rust_eq (a b : WorkSession) : Bool :=
  (a.start == b.start) && (a.stop == b.stop) && (a.description == b.description)

/-- Model of `impl PartialEq for SubProject` (src/lib.rs lines 65-69). -/
def SubProject.rust_eq (a b : SubProject) : Bool :=
  (a.name == b.name) && (a.description == b.description) && (a.id == b.id)

/-- `Vec<T>` equality: same length and element-wise `PartialEq`. -/
def list_rust_eq {α : Type} (eq : α → α → Bool) : List α → List α → Bool
  | [], [] => true
  | x :: xs, y :: ys => eq x y && list_rust_eq eq xs ys
  | _, _ => false

/-- Model of the derived `PartialEq` for `TimeSheet` (src/lib.rs line 161):
field-wise comparison, using the custom `PartialEq` of `WorkSession` and
`SubProject` for the vectors. -/
def TimeSheet.rust_eq (a b : TimeSheet) : Bool :=
  (a.project_name == b.project_name) && (a.hourly_rate == b.hourly_rate)
    && list_rust_eq WorkSession.rust_eq a.work_sessions b.work_sessions
    && list_rust_eq SubProject.rust_eq a.subprojects b.subprojects

lemma list_rust_eq_of_forall₂ {α : Type} {R : α → α → Prop}
    {eq : α → α → Bool} (heq : ∀ a b, R a b → eq a b = true) :
    ∀ {l1 l2 : List α}, List.Forall₂ R l1 l2 → list_rust_eq eq l1 l2 = true := by
  intro l1 l2 h
  induction h with
  | nil => rfl
  | cons hab _ ih =>
    rw [list_rust_eq, heq _ _ hab, ih]
    rfl

lemma list_rust_eq_refl {α : Type} {eq : α → α → Bool}
    (heq : ∀ a, eq a a = true) : ∀ l : List α, list_rust_eq eq l l = true := by
  intro l
  induction l with
  | nil => rfl
  | cons x xs ih =>
    rw [list_rust_eq, heq x, ih]
    rfl

/-- C10 (implicit): the program's equality on sessions ignores the
homeoffice flag.  Any two `WorkSession` values agreeing on `start`, `stop`
and `description` compare equal under the Rust `PartialEq` regardless of
their homeoffice flags, and hence two whole `TimeSheet` values whose
sessions differ only in homeoffice flags compare equal. -/
theorem C10_eq_ignores_homeoffice :
    (∀ a b : WorkSession, a.start = b.start → a.stop = b.stop →
      a.description = b.description → WorkSession.rust_eq a b = true)
    ∧ (∀ t1 t2 : TimeSheet, t1.project_name = t2.project_name →
      t1.hourly_rate = t2.hourly_rate → t1.subprojects = t2.subprojects →
      List.Forall₂ (fun a b => a.start = b.start ∧ a.stop = b.stop ∧
        a.description = b.description) t1.work_sessions t2.work_sessions →
      TimeSheet.rust_eq t1 t2 = true) := by
  have hws : ∀ a b : WorkSession, a.start = b.start → a.stop = b.stop →
      a.description = b.description → WorkSession.rust_eq a b = true := by
    intro a b h1 h2 h3
    simp [WorkSession.rust_eq, h1, h2, h3]
  refine ⟨hws, ?_⟩
  intro t1 t2 h1 h2 h3 h4
  have hsp : list_rust_eq SubProject.rust_eq t1.subprojects t2.subprojects
      = true := by
    rw [h3]
    exact list_rust_eq_refl (fun a => by simp [SubProject.rust_eq]) _
  have hwss : list_rust_eq WorkSession.rust_eq t1.work_sessions
      t2.work_sessions = true :=
    list_rust_eq_of_forall₂ (fun a b hab => hws a b hab.1 hab.2.1 hab.2.2) h4
  simp [TimeSheet.rust_eq, h1, h2, hsp, hwss]

/-- Witness for C10: a session pair and a sheet pair differing only in one
homeoffice flag compare equal under the Rust `PartialEq` (while being
distinct values). -/
theorem C10_eq_ignores_homeoffice_witness :
    WorkSession.rust_eq ⟨⟨0, 0⟩, none, "w", false⟩ ⟨⟨0, 0⟩, none, "w", true⟩
      = true
    ∧ TimeSheet.rust_eq ⟨"p", none, [⟨⟨0, 0⟩, none, "w", false⟩], []⟩
        ⟨"p", none, [⟨⟨0, 0⟩, none, "w", true⟩], []⟩ = true :=
  ⟨C10_eq_ignores_homeoffice.1 _ _ rfl rfl rfl,
   C10_eq_ignores_homeoffice.2 _ _ rfl rfl rfl
     (List.Forall₂.cons ⟨rfl, rfl, rfl⟩ List.Forall₂.nil)⟩

end Timetracker
